import Mathlib

/-!
Verification of the composable command execution engine of the odo repository:
the bounded-concurrency Task Runner (`util.ConcurrentTasks`), the parallel
composite command (`common.parallelCompositeCommand`), the sequential
composite and leaf commands, and the registry stack listing
(`registry.RegistryClient.ListDevfileStacks`).

Effects are embedded explicitly: each work unit is denoted by the trace of
side effects it performs together with the sequence of values it sends on the
shared error channel; the nondeterministic completion order of concurrently
running units is an explicit `order` argument, and the theorems quantify over
all permutations of the registered units.
-/

/-- GoErr models a Go `error` value: either a base error carrying a message,
or an error produced by `fmt.Errorf` with a trailing `%w` verb, whose message
is the formatting text followed by the wrapped error's message and whose
`errors.Unwrap` yields the wrapped error. -/
inductive GoErr where
  | base (msg : String)
  | wrap (pfx : String) (inner : GoErr)
deriving DecidableEq

/-- Message of a Go error, as returned by its `Error()` method. -/
def GoErr.message : GoErr → String
  | .base s => s
  | .wrap pfx inner => pfx ++ inner.message

/-- Unwrapping a Go error (`errors.Unwrap`): defined for errors built by
`fmt.Errorf` with `%w`, `none` for base errors. -/
def GoErr.unwrap : GoErr → Option GoErr
  | .base _ => none
  | .wrap _ inner => some inner

namespace util

/-- Denotation of running a work unit's closure once: `events` is the ordered
list of externally observable side effects it performs (abstract events of
type `ε`) and `writes` the ordered list of error values it sends on the
shared error channel. -/
structure TaskEffect (ε : Type) where
  events : List ε
  writes : List GoErr
deriving DecidableEq

/-- ConcurrentTask mirrors `util.ConcurrentTask`: a work unit whose `ToRun`
closure is denoted by the effect produced when it is run. -/
structure ConcurrentTask (ε : Type) where
  ToRun : TaskEffect ε
deriving DecidableEq

/-- Modelled from the spec: the Task Runner instance (`util.ConcurrentTasks`,
whose internals are not part of the sampled source). It holds the fixed
capacity declared at construction, the registered work units, and a flag
recording whether `Run` has already been invoked. -/
structure ConcurrentTasks (ε : Type) where
  capacity : Nat
  tasks : List (ConcurrentTask ε)
  hasRun : Bool
deriving DecidableEq

/-- Modelled from the spec: misuse failures are programmer errors that must
fail immediately and loudly — registering more work units than the declared
capacity, or invoking `Run` twice on the same runner. -/
inductive MisuseError where
  | overCapacity
  | runTwice
deriving DecidableEq

/-- Modelled from the spec: `util.NewConcurrentTasks` constructs a runner with
the declared capacity and no registered units. -/
def NewConcurrentTasks (ε : Type) (taskNumber : Nat) : ConcurrentTasks ε :=
  ⟨taskNumber, [], false⟩

/-- Modelled from the spec: `Add` registers a work unit; adding more than
`capacity` units is a caller error, rejected at registration time. -/
def ConcurrentTasks.Add (ct : ConcurrentTasks ε) (task : ConcurrentTask ε) :
    Except MisuseError (ConcurrentTasks ε) :=
  if ct.tasks.length < ct.capacity then
    Except.ok ⟨ct.capacity, ct.tasks ++ [task], ct.hasRun⟩
  else
    Except.error MisuseError.overCapacity

/-- Registering a batch of work units one by one, as done by the `for` loops
of the composite commands and of `ListDevfileStacks`. -/
def ConcurrentTasks.addAll :
    ConcurrentTasks ε → List (ConcurrentTask ε) → Except MisuseError (ConcurrentTasks ε)
  | ct, [] => Except.ok ct
  | ct, t :: rest =>
    match ct.Add t with
    | Except.ok ct2 => ct2.addAll rest
    | Except.error e => Except.error e

/-- Modelled from the spec: `Run` launches every registered unit concurrently
and blocks until all complete or the first failure arrives on the shared
error channel (whose capacity equals the number of units, so every unit can
write without blocking). `order` is the completion order actually realized by
the scheduler; the theorems quantify over all permutations of the registered
tasks. `Run` returns the runner marked as used, the interleaved trace of side
effects, and the first error observed on the channel (`none` if no unit wrote
an error). Invoking `Run` twice on the same runner is a misuse error. -/
def ConcurrentTasks.Run (ct : ConcurrentTasks ε) (order : List (ConcurrentTask ε)) :
    Except MisuseError (ConcurrentTasks ε × List ε × Option GoErr) :=
  if ct.hasRun then
    Except.error MisuseError.runTwice
  else
    Except.ok (⟨ct.capacity, ct.tasks, true⟩,
      order.flatMap fun t => t.ToRun.events,
      (order.flatMap fun t => t.ToRun.writes).head?)

end util

namespace common

/-- Behavior of a child command through the `command` interface: `Execute`
takes the `show` flag and yields the trace of side effects performed together
with the returned error (`none` is Go's `nil`); `UnExecute` likewise. Side
effects are abstract event identifiers. -/
structure command where
  Execute : Bool → List Nat × Option GoErr
  UnExecute : List Nat × Option GoErr

/-- Fixed provenance text used by the parallel composite when wrapping a
failure: `fmt.Errorf("parallel command execution failed: %w", err)`. -/
def parallelErrPfx : String := "parallel command execution failed: "

/-- parallelCompositeCommand mirrors the source struct: it holds the list of
child commands, fixed at construction. -/
structure parallelCompositeCommand where
  cmds : List command

/-- newParallelCompositeCommand mirrors the source constructor. -/
def newParallelCompositeCommand (cmds : List command) : parallelCompositeCommand :=
  ⟨cmds⟩

/-- Denotation of the closure registered for one child inside
`parallelCompositeCommand.Execute`: it runs `cmd.Execute(show)`, performing
that child's side effects, and sends the resulting error on the shared
channel iff it is non-nil. -/
def execTask (cmd : command) (sh : Bool) : util.ConcurrentTask Nat :=
  let res := cmd.Execute sh
  ⟨⟨res.1, match res.2 with | some err => [err] | none => []⟩⟩

/-- Denotation of the closure registered for one child inside
`parallelCompositeCommand.UnExecute`. -/
def unexecTask (cmd : command) : util.ConcurrentTask Nat :=
  let res := cmd.UnExecute
  ⟨⟨res.1, match res.2 with | some err => [err] | none => []⟩⟩

/-- The batch of work units registered by the loop in
`parallelCompositeCommand.Execute`, one per child in declaration order. -/
def execTasks (p : parallelCompositeCommand) (sh : Bool) : List (util.ConcurrentTask Nat) :=
  p.cmds.map fun cmd => execTask cmd sh

/-- The batch of work units registered by the loop in
`parallelCompositeCommand.UnExecute`. -/
def unexecTasks (p : parallelCompositeCommand) : List (util.ConcurrentTask Nat) :=
  p.cmds.map unexecTask

/-- parallelCompositeCommand.Execute, embedded in state-passing style: the
first component of the result is the receiver as the method body leaves it
(the method has a value receiver and assigns no field, so it is returned
unchanged); the second is the interleaved trace of child side effects and the
returned error. The method builds a runner sized to `len(p.cmds)`, registers
one unit per child and calls `Run`; a non-nil result of `Run` is wrapped with
`parallelErrPfx`. The two `Except.error` branches are unreachable: exactly
`len(p.cmds)` units are registered on a runner of that capacity, and the
runner is fresh. -/
def parallelCompositeCommand.Execute (p : parallelCompositeCommand) (sh : Bool)
    (order : List (util.ConcurrentTask Nat)) :
    parallelCompositeCommand × List Nat × Option GoErr :=
  match (util.NewConcurrentTasks Nat p.cmds.length).addAll (execTasks p sh) with
  | Except.error _ => (p, [], none)
  | Except.ok commandExecs =>
    match commandExecs.Run order with
    | Except.error _ => (p, [], none)
    | Except.ok (_, trace, some err) => (p, trace, some (GoErr.wrap parallelErrPfx err))
    | Except.ok (_, trace, none) => (p, trace, none)

/-- parallelCompositeCommand.UnExecute, embedded exactly like `Execute` but
over the children's `UnExecute`. -/
def parallelCompositeCommand.UnExecute (p : parallelCompositeCommand)
    (order : List (util.ConcurrentTask Nat)) :
    parallelCompositeCommand × List Nat × Option GoErr :=
  match (util.NewConcurrentTasks Nat p.cmds.length).addAll (unexecTasks p) with
  | Except.error _ => (p, [], none)
  | Except.ok commandExecs =>
    match commandExecs.Run order with
    | Except.error _ => (p, [], none)
    | Except.ok (_, trace, some err) => (p, trace, some (GoErr.wrap parallelErrPfx err))
    | Except.ok (_, trace, none) => (p, trace, none)

/-- Modelled from the spec: the sequential composite command (not part of the
sampled source) holds an ordered list of child commands, fixed at
construction. -/
structure sequentialCompositeCommand where
  cmds : List command

/-- Modelled from the spec: running the children of a sequential composite
strictly in declaration order, stopping at the first failure and returning
that error unchanged, leaving later children un-executed. The first component
is the trace of side effects actually performed. -/
def seqRunChildren (step : command → List Nat × Option GoErr) :
    List command → List Nat × Option GoErr
  | [] => ([], none)
  | c :: rest =>
    let res := step c
    match res.2 with
    | some err => (res.1, some err)
    | none =>
      let rest' := seqRunChildren step rest
      (res.1 ++ rest'.1, rest'.2)

/-- Modelled from the spec: `Execute` of a sequential composite runs each
child's `Execute` strictly in declaration order, stopping at the first
failure. State-passing style as for the parallel composite. -/
def sequentialCompositeCommand.Execute (s : sequentialCompositeCommand) (sh : Bool) :
    sequentialCompositeCommand × List Nat × Option GoErr :=
  (s, seqRunChildren (fun c => c.Execute sh) s.cmds)

/-- Modelled from the spec: `UnExecute` of a sequential composite runs each
child's `UnExecute` strictly in declaration order, stopping at the first
failure. -/
def sequentialCompositeCommand.UnExecute (s : sequentialCompositeCommand) :
    sequentialCompositeCommand × List Nat × Option GoErr :=
  (s, seqRunChildren (fun c => c.UnExecute) s.cmds)

/-- Modelled from the spec: a leaf command wraps a single externally supplied
forward action and a compensating action; it has no children. -/
structure leafCommand where
  action : Bool → List Nat × Option GoErr
  compensatingAction : List Nat × Option GoErr

/-- Modelled from the spec: `Execute` of a leaf invokes the wrapped forward
action and returns its error verbatim. -/
def leafCommand.Execute (l : leafCommand) (sh : Bool) :
    leafCommand × List Nat × Option GoErr :=
  (l, l.action sh)

/-- Modelled from the spec: `UnExecute` of a leaf invokes the wrapped
compensating action and returns its error verbatim. -/
def leafCommand.UnExecute (l : leafCommand) :
    leafCommand × List Nat × Option GoErr :=
  (l, l.compensatingAction)

end common

namespace registry

/-- Registry mirrors the `Registry` value built by `GetDevfileRegistries`
from a preference-file entry: name, URL and the secure flag. -/
structure Registry where
  Name : String
  URL : String
  Secure : Bool
deriving DecidableEq

/-- PrefRegistry mirrors a `preference.Registry` entry of the preference
file, as read through `preferenceClient.RegistryList()`. -/
structure PrefRegistry where
  Name : String
  URL : String
  Secure : Bool
deriving DecidableEq

/-- PreferenceClient models the slice of `preference.Client` used by
`GetDevfileRegistries`: `RegistryList()` returns a pointer to the configured
registry list, `none` standing for a nil pointer. -/
structure PreferenceClient where
  RegistryList : Option (List PrefRegistry)

/-- RegistryClient mirrors the source struct (the filesystem field plays no
role in the embedded operations). -/
structure RegistryClient where
  preferenceClient : PreferenceClient

/-- DevfileStack mirrors the stack entry built from a registry index. Only
the fields present in the source are carried; the claims treat stacks as
opaque items. -/
structure DevfileStack where
  Name : String
  DisplayName : String
  Description : String
  Link : String
  Registry : Registry
  Language : String
  Tags : List String
  ProjectType : String
deriving DecidableEq

/-- DevfileStackList mirrors the result type of `ListDevfileStacks` in the
fields the source populates: the registries consulted and the concatenated
stack items. -/
structure DevfileStackList where
  DevfileRegistries : List Registry
  Items : List DevfileStack
deriving DecidableEq

/-- The backwards loop of `GetDevfileRegistries`, run here over the already
reversed preference list: with a requested name it appends only the first
matching registry and returns immediately; without a name it appends every
registry. -/
def collectRegistries (hasName : Bool) (registryName : String) :
    List PrefRegistry → List Registry
  | [] => []
  | r :: rest =>
    if hasName then
      if registryName == r.Name then [⟨r.Name, r.URL, r.Secure⟩]
      else collectRegistries hasName registryName rest
    else ⟨r.Name, r.URL, r.Secure⟩ :: collectRegistries hasName registryName rest

/-- GetDevfileRegistries mirrors the source: it reads the preference file's
registry list (returning a nil slice and nil error when the list pointer is
nil) and loops backwards over it so that the most recently added registry
comes first; with a non-empty `registryName` only that registry is returned.
A Go nil slice is represented by `[]`: the slice is nil exactly when nothing
was appended to it, i.e. exactly when it is empty. The error result is
always nil in the source. -/
def GetDevfileRegistries (o : RegistryClient) (registryName : String) :
    List Registry × Option GoErr :=
  match o.preferenceClient.RegistryList with
  | none => ([], none)
  | some registryList =>
    (collectRegistries (registryName.length != 0) registryName registryList.reverse, none)

/-- Events performed by a registry-index retrieval unit: either writing the
retrieved devfile slice into the slot of `registrySlice` indexed by the
registry's priority (a mutex-guarded assignment in the source), or logging
the warning emitted when `getRegistryStacks` fails. -/
inductive RegistryEvent where
  | slotWrite (registryPriority : Nat) (registryDevfiles : List DevfileStack)
  | warning (registryName : String)
deriving DecidableEq

/-- Denotation of the closure registered in `ListDevfileStacks` for one
registry: it calls `getRegistryStacks` (abstracted as `fetch`, since the
retrieval is network I/O performed by collaborators); on failure it logs a
warning and returns without writing to the error channel; on success it
stores the result in the slot indexed by the registry's priority. In either
case nothing is ever sent on the error channel. -/
def retrieveTask (fetch : Registry → Except GoErr (List DevfileStack))
    (registryPriority : Nat) (reg : Registry) : util.ConcurrentTask RegistryEvent :=
  match fetch reg with
  | Except.error _ => ⟨⟨[RegistryEvent.warning reg.Name], []⟩⟩
  | Except.ok registryDevfiles =>
    ⟨⟨[RegistryEvent.slotWrite registryPriority registryDevfiles], []⟩⟩

/-- The batch of retrieval units registered by the `for regPriority, reg :=
range ...` loop, one per registry in priority (index) order. -/
def retrieveTasks (fetch : Registry → Except GoErr (List DevfileStack))
    (regs : List Registry) : List (util.ConcurrentTask RegistryEvent) :=
  regs.enum.map fun pr => retrieveTask fetch pr.1 pr.2

/-- Applying one registry event to the shared `registrySlice`: a slot write
replaces the slot at the registry's priority index; a warning changes
nothing. -/
def applySlot (sl : List (List DevfileStack)) : RegistryEvent → List (List DevfileStack)
  | RegistryEvent.slotWrite i stks => sl.set i stks
  | RegistryEvent.warning _ => sl

/-- The contents of `registrySlice` after all retrieval units have run, in
the completion order realized by the scheduler (the mutex serializes the
slot writes, so the trace is a sequence). -/
def applyTrace (sl : List (List DevfileStack)) (tr : List RegistryEvent) :
    List (List DevfileStack) :=
  tr.foldl applySlot sl

/-- ListDevfileStacks mirrors the source: it obtains the registries, returns
early on a nil registry slice, registers one concurrent retrieval unit per
registry on a runner sized to the number of registries, runs them, and
concatenates the slots of `registrySlice` in index (priority) order into
`Items`. `fetch` abstracts `getRegistryStacks` and `order` is the completion
order of the concurrent units. The two `Except.error` branches are
unreachable: exactly one unit per registry is registered on a runner of that
capacity, and the runner is fresh. -/
def ListDevfileStacks (o : RegistryClient)
    (fetch : Registry → Except GoErr (List DevfileStack)) (registryName : String)
    (order : List (util.ConcurrentTask RegistryEvent)) :
    DevfileStackList × Option GoErr :=
  match GetDevfileRegistries o registryName with
  | (devfileRegistries, some err) => (⟨devfileRegistries, []⟩, some err)
  | (devfileRegistries, none) =>
    if devfileRegistries.isEmpty then (⟨devfileRegistries, []⟩, none)
    else
      match (util.NewConcurrentTasks RegistryEvent devfileRegistries.length).addAll
          (retrieveTasks fetch devfileRegistries) with
      | Except.error _ => (⟨devfileRegistries, []⟩, none)
      | Except.ok retrieveRegistryIndices =>
        match retrieveRegistryIndices.Run order with
        | Except.error _ => (⟨devfileRegistries, []⟩, none)
        | Except.ok (_, _, some err) => (⟨devfileRegistries, []⟩, some err)
        | Except.ok (_, trace, none) =>
          let registrySlice :=
            applyTrace (List.replicate devfileRegistries.length []) trace
          (⟨devfileRegistries, registrySlice.flatten⟩, none)

/-- The items a single registry contributes to the final list: the retrieved
stacks on success, nothing when the retrieval failed. -/
def stacksOf (fetch : Registry → Except GoErr (List DevfileStack)) (reg : Registry) :
    List DevfileStack :=
  match fetch reg with
  | Except.ok registryDevfiles => registryDevfiles
  | Except.error _ => []

/-- The slot update carried by a registry event, if any (a warning carries
none). -/
def evToUpd : RegistryEvent → Option (Nat × List DevfileStack)
  | RegistryEvent.slotWrite i stks => some (i, stks)
  | RegistryEvent.warning _ => none

/-- Applying a list of indexed slot updates to `registrySlice` in order. -/
def applyUpds (sl : List (List DevfileStack)) (us : List (Nat × List DevfileStack)) :
    List (List DevfileStack) :=
  us.foldl (fun sl2 u => sl2.set u.1 u.2) sl

/-- The slot update produced by the retrieval unit of one enumerated
registry: its priority paired with the retrieved stacks on success, nothing
on failure. -/
def updOf (fetch : Registry → Except GoErr (List DevfileStack)) (pr : Nat × Registry) :
    Option (Nat × List DevfileStack) :=
  match fetch pr.2 with
  | Except.ok registryDevfiles => some (pr.1, registryDevfiles)
  | Except.error _ => none

end registry

namespace samples

/-- Sample child command that succeeds. -/
def okCmdA : common.command := ⟨fun _ => ([1], none), ([11], none)⟩

/-- Second sample child command that succeeds. -/
def okCmdB : common.command := ⟨fun _ => ([2], none), ([12], none)⟩

/-- Sample child command whose `Execute` and `UnExecute` fail. -/
def failCmdA : common.command :=
  ⟨fun _ => ([3], some (GoErr.base "boomA")), ([13], some (GoErr.base "undoA"))⟩

/-- Second failing sample child command, with distinct errors. -/
def failCmdB : common.command :=
  ⟨fun _ => ([4], some (GoErr.base "boomB")), ([14], some (GoErr.base "undoB"))⟩

/-- Parallel composite whose two children both fail with distinct errors. -/
def pParFail : common.parallelCompositeCommand := ⟨[failCmdA, failCmdB]⟩

/-- Parallel composite with a succeeding and a failing child. -/
def pParMixed : common.parallelCompositeCommand := ⟨[okCmdA, failCmdB]⟩

/-- Sequential composite where the middle child fails. -/
def sSeqFail : common.sequentialCompositeCommand := ⟨[okCmdA, failCmdA, okCmdB]⟩

/-- Sample work unit that writes one error on the channel. -/
def unitFail : util.ConcurrentTask Nat := ⟨⟨[21], [GoErr.base "unit"]⟩⟩

/-- Sample work unit that writes nothing. -/
def unitOk : util.ConcurrentTask Nat := ⟨⟨[22], []⟩⟩

/-- Sample registries for the registry-client claims. -/
def regA : registry.Registry := ⟨"regA", "https://a.example", false⟩

/-- Second sample registry. -/
def regB : registry.Registry := ⟨"regB", "https://b.example", true⟩

/-- Sample registry client whose preference file lists `regB` then `regA`
(so that `GetDevfileRegistries`, looping backwards, yields `regA` first). -/
def regClient : registry.RegistryClient :=
  ⟨⟨some [⟨"regB", "https://b.example", true⟩, ⟨"regA", "https://a.example", false⟩]⟩⟩

/-- Sample devfile stack served by `regB`. -/
def stackB : registry.DevfileStack :=
  ⟨"nodejs", "Node.js", "a stack", "/devfiles/nodejs", regB, "js", ["web"], "nodejs"⟩

/-- Sample retrieval outcome: `regA` fails, `regB` returns one stack. -/
def sampleFetch (reg : registry.Registry) : Except GoErr (List registry.DevfileStack) :=
  if reg.Name == "regA" then Except.error (GoErr.base "index down")
  else Except.ok [stackB]

end samples

/-! ## Helper lemmas -/

theorem util.addAll_ok {ε : Type} (ts : List (util.ConcurrentTask ε)) :
    ∀ ct : util.ConcurrentTasks ε, ct.tasks.length + ts.length ≤ ct.capacity →
      ct.addAll ts = Except.ok ⟨ct.capacity, ct.tasks ++ ts, ct.hasRun⟩ := by
  induction ts with
  | nil => intro ct h; simp [util.ConcurrentTasks.addAll]
  | cons t rest ih =>
    intro ct h
    have hlt : ct.tasks.length < ct.capacity := by simp at h; omega
    simp only [util.ConcurrentTasks.addAll, util.ConcurrentTasks.Add, if_pos hlt]
    have hrec := ih ⟨ct.capacity, ct.tasks ++ [t], ct.hasRun⟩ (by simp at h ⊢; omega)
    rw [hrec]
    simp

theorem util.run_fresh {ε : Type} (cap : Nat) (ts order : List (util.ConcurrentTask ε)) :
    util.ConcurrentTasks.Run ⟨cap, ts, false⟩ order =
      Except.ok (⟨cap, ts, true⟩, order.flatMap (fun t => t.ToRun.events),
        (order.flatMap fun t => t.ToRun.writes).head?) := by
  simp [util.ConcurrentTasks.Run]

theorem common.parallel_execute_eq (p : common.parallelCompositeCommand) (sh : Bool)
    (order : List (util.ConcurrentTask Nat)) :
    p.Execute sh order =
      (p, order.flatMap (fun t => t.ToRun.events),
        ((order.flatMap fun t => t.ToRun.writes).head?).map (GoErr.wrap common.parallelErrPfx)) := by
  have hadd := util.addAll_ok (common.execTasks p sh) (util.NewConcurrentTasks Nat p.cmds.length)
    (by simp [util.NewConcurrentTasks, common.execTasks])
  simp only [common.parallelCompositeCommand.Execute, util.NewConcurrentTasks] at hadd ⊢
  rw [hadd]
  simp only [List.nil_append]
  rw [util.run_fresh]
  cases h : (order.flatMap fun t => t.ToRun.writes).head? <;> simp [h]

theorem common.parallel_unexecute_eq (p : common.parallelCompositeCommand)
    (order : List (util.ConcurrentTask Nat)) :
    p.UnExecute order =
      (p, order.flatMap (fun t => t.ToRun.events),
        ((order.flatMap fun t => t.ToRun.writes).head?).map (GoErr.wrap common.parallelErrPfx)) := by
  have hadd := util.addAll_ok (common.unexecTasks p) (util.NewConcurrentTasks Nat p.cmds.length)
    (by simp [util.NewConcurrentTasks, common.unexecTasks])
  simp only [common.parallelCompositeCommand.UnExecute, util.NewConcurrentTasks] at hadd ⊢
  rw [hadd]
  simp only [List.nil_append]
  rw [util.run_fresh]
  cases h : (order.flatMap fun t => t.ToRun.writes).head? <;> simp [h]

theorem common.exec_writes_mem (p : common.parallelCompositeCommand) (sh : Bool) (e : GoErr)
    (hmem : e ∈ (common.execTasks p sh).flatMap fun t => t.ToRun.writes) :
    ∃ c ∈ p.cmds, (c.Execute sh).2 = some e := by
  rcases List.mem_flatMap.mp hmem with ⟨t, ht, he⟩
  rcases List.mem_map.mp ht with ⟨c, hc, rfl⟩
  cases hcc : (c.Execute sh).2 with
  | none => simp [common.execTask, hcc] at he
  | some e2 =>
    simp [common.execTask, hcc] at he
    exact ⟨c, hc, by rw [hcc, he]⟩

theorem common.unexec_writes_mem (p : common.parallelCompositeCommand) (e : GoErr)
    (hmem : e ∈ (common.unexecTasks p).flatMap fun t => t.ToRun.writes) :
    ∃ c ∈ p.cmds, c.UnExecute.2 = some e := by
  rcases List.mem_flatMap.mp hmem with ⟨t, ht, he⟩
  rcases List.mem_map.mp ht with ⟨c, hc, rfl⟩
  cases hcc : c.UnExecute.2 with
  | none => simp [common.unexecTask, hcc] at he
  | some e2 =>
    simp [common.unexecTask, hcc] at he
    exact ⟨c, hc, by rw [hcc, he]⟩

theorem common.first_error_is_child_exec_error (p : common.parallelCompositeCommand)
    (sh : Bool) (order : List (util.ConcurrentTask Nat))
    (horder : order.Perm (common.execTasks p sh)) (e : GoErr)
    (hhead : (order.flatMap fun t => t.ToRun.writes).head? = some e) :
    ∃ c ∈ p.cmds, (c.Execute sh).2 = some e := by
  apply common.exec_writes_mem
  exact (horder.flatMap_right fun t => t.ToRun.writes).mem_iff.mp (List.mem_of_mem_head? hhead)

theorem common.first_error_is_child_unexec_error (p : common.parallelCompositeCommand)
    (order : List (util.ConcurrentTask Nat))
    (horder : order.Perm (common.unexecTasks p)) (e : GoErr)
    (hhead : (order.flatMap fun t => t.ToRun.writes).head? = some e) :
    ∃ c ∈ p.cmds, c.UnExecute.2 = some e := by
  apply common.unexec_writes_mem
  exact (horder.flatMap_right fun t => t.ToRun.writes).mem_iff.mp (List.mem_of_mem_head? hhead)

/-! ## Claim theorems -/

/-- C1: for every ParallelComposite whose children include at least two
children whose `Execute` fails (with distinct errors), `Execute` returns
exactly one error (at most one by its result type, and here exactly one),
that error is wrapped with the parallel-execution provenance text, and the
unwrapped error is one of the errors actually returned by the failing
children; no second error is returned or aggregated. The completion order of
the concurrent units is arbitrary. -/
theorem common.parallel_first_failure_wins (p : common.parallelCompositeCommand)
    (sh : Bool) (order : List (util.ConcurrentTask Nat)) (i j : Nat)
    (hi : i < p.cmds.length) (hj : j < p.cmds.length) (hne : i ≠ j)
    (e1 e2 : GoErr)
    (h1 : ((p.cmds.get ⟨i, hi⟩).Execute sh).2 = some e1)
    (h2 : ((p.cmds.get ⟨j, hj⟩).Execute sh).2 = some e2)
    (hdist : e1 ≠ e2)
    (horder : order.Perm (common.execTasks p sh)) :
    ∃ e, (p.Execute sh order).2.2 = some (GoErr.wrap common.parallelErrPfx e) ∧
      ∃ c ∈ p.cmds, (c.Execute sh).2 = some e := by
  rw [common.parallel_execute_eq]
  have hmem1 : e1 ∈ (common.execTasks p sh).flatMap fun t => t.ToRun.writes := by
    refine List.mem_flatMap.mpr ⟨common.execTask (p.cmds.get ⟨i, hi⟩) sh, ?_, ?_⟩
    · exact List.mem_map.mpr ⟨_, List.get_mem _ _ _, rfl⟩
    · rw [List.get_eq_getElem] at h1
      simp [common.execTask, h1]
  cases hW : order.flatMap fun t => t.ToRun.writes with
  | nil =>
    exfalso
    have hperm := horder.flatMap_right fun t => t.ToRun.writes
    rw [hW] at hperm
    rw [← hperm.nil_eq] at hmem1
    exact absurd hmem1 (List.not_mem_nil e1)
  | cons a tl =>
    refine ⟨a, by simp, ?_⟩
    exact common.first_error_is_child_exec_error p sh order horder a (by rw [hW]; rfl)

/-- C1 witness: a parallel composite with two children failing with distinct
errors returns one wrapped child error. -/
theorem common.parallel_first_failure_wins_witness :
    (0 : Nat) ≠ 1 ∧ (GoErr.base "boomA") ≠ (GoErr.base "boomB") ∧
    ∃ e, (samples.pParFail.Execute true (common.execTasks samples.pParFail true)).2.2 =
        some (GoErr.wrap common.parallelErrPfx e) ∧
      ∃ c ∈ samples.pParFail.cmds, (c.Execute true).2 = some e :=
  ⟨by decide, by decide,
    common.parallel_first_failure_wins samples.pParFail true _ 0 1 (by decide) (by decide)
      (by decide) (GoErr.base "boomA") (GoErr.base "boomB") rfl rfl (by decide)
      (List.Perm.refl _)⟩

/-- C2: for every ParallelComposite with k children, `Execute` constructs a
Task Runner with capacity exactly k and registers exactly one work unit per
child (in declaration order); each registered unit, when run, writes exactly
one error value to the shared error channel if that child's `Execute`
returns a non-nil error, and writes nothing if that child's `Execute`
returns nil. -/
theorem common.parallel_registers_one_unit_per_child (p : common.parallelCompositeCommand)
    (sh : Bool) :
    ∃ runner : util.ConcurrentTasks Nat,
      (util.NewConcurrentTasks Nat p.cmds.length).addAll (common.execTasks p sh) =
        Except.ok runner ∧
      runner.capacity = p.cmds.length ∧
      runner.tasks = common.execTasks p sh ∧
      runner.tasks.length = p.cmds.length ∧
      ∀ cmd ∈ p.cmds,
        ((cmd.Execute sh).2 = none → (common.execTask cmd sh).ToRun.writes = []) ∧
        ∀ e, (cmd.Execute sh).2 = some e → (common.execTask cmd sh).ToRun.writes = [e] := by
  refine ⟨⟨p.cmds.length, common.execTasks p sh, false⟩, ?_, rfl, rfl, ?_, ?_⟩
  · have h := util.addAll_ok (common.execTasks p sh) (util.NewConcurrentTasks Nat p.cmds.length)
      (by simp [util.NewConcurrentTasks, common.execTasks])
    simpa [util.NewConcurrentTasks] using h
  · simp [common.execTasks]
  · intro cmd _
    constructor
    · intro h; simp [common.execTask, h]
    · intro e h; simp [common.execTask, h]

/-- C2 witness: runner shape for a concrete two-child composite. -/
theorem common.parallel_registers_one_unit_per_child_witness :
    ∃ runner : util.ConcurrentTasks Nat,
      (util.NewConcurrentTasks Nat samples.pParMixed.cmds.length).addAll
          (common.execTasks samples.pParMixed true) =
        Except.ok runner ∧
      runner.capacity = samples.pParMixed.cmds.length ∧
      runner.tasks = common.execTasks samples.pParMixed true ∧
      runner.tasks.length = samples.pParMixed.cmds.length ∧
      ∀ cmd ∈ samples.pParMixed.cmds,
        ((cmd.Execute true).2 = none → (common.execTask cmd true).ToRun.writes = []) ∧
        ∀ e, (cmd.Execute true).2 = some e → (common.execTask cmd true).ToRun.writes = [e] :=
  common.parallel_registers_one_unit_per_child samples.pParMixed true

/-- C3: whenever `parallelCompositeCommand.Execute` or `UnExecute` returns a
non-nil error, that error's message begins with the fixed provenance text
"parallel command execution failed: " and the underlying child error is
preserved, recoverable by unwrapping — not replaced or discarded. -/
theorem common.parallel_error_wrapped (p : common.parallelCompositeCommand) (sh : Bool)
    (order orderU : List (util.ConcurrentTask Nat))
    (horder : order.Perm (common.execTasks p sh))
    (horderU : orderU.Perm (common.unexecTasks p)) :
    (∀ err, (p.Execute sh order).2.2 = some err →
      (∃ rest, err.message = common.parallelErrPfx ++ rest) ∧
      ∃ e, err.unwrap = some e ∧ err = GoErr.wrap common.parallelErrPfx e ∧
        ∃ c ∈ p.cmds, (c.Execute sh).2 = some e) ∧
    (∀ err, (p.UnExecute orderU).2.2 = some err →
      (∃ rest, err.message = common.parallelErrPfx ++ rest) ∧
      ∃ e, err.unwrap = some e ∧ err = GoErr.wrap common.parallelErrPfx e ∧
        ∃ c ∈ p.cmds, c.UnExecute.2 = some e) := by
  constructor
  · intro err herr
    rw [common.parallel_execute_eq] at herr
    simp only [Option.map_eq_some'] at herr
    rcases herr with ⟨e, hhead, rfl⟩
    refine ⟨⟨e.message, rfl⟩, e, rfl, rfl, ?_⟩
    exact common.first_error_is_child_exec_error p sh order horder e hhead
  · intro err herr
    rw [common.parallel_unexecute_eq] at herr
    simp only [Option.map_eq_some'] at herr
    rcases herr with ⟨e, hhead, rfl⟩
    refine ⟨⟨e.message, rfl⟩, e, rfl, rfl, ?_⟩
    exact common.first_error_is_child_unexec_error p orderU horderU e hhead

/-- C3 witness: wrapping and unwrapping at a concrete failing composite. -/
theorem common.parallel_error_wrapped_witness :
    (∀ err, (samples.pParFail.Execute true (common.execTasks samples.pParFail true)).2.2 =
        some err →
      (∃ rest, err.message = common.parallelErrPfx ++ rest) ∧
      ∃ e, err.unwrap = some e ∧ err = GoErr.wrap common.parallelErrPfx e ∧
        ∃ c ∈ samples.pParFail.cmds, (c.Execute true).2 = some e) ∧
    (∀ err, (samples.pParFail.UnExecute (common.unexecTasks samples.pParFail)).2.2 =
        some err →
      (∃ rest, err.message = common.parallelErrPfx ++ rest) ∧
      ∃ e, err.unwrap = some e ∧ err = GoErr.wrap common.parallelErrPfx e ∧
        ∃ c ∈ samples.pParFail.cmds, c.UnExecute.2 = some e) :=
  common.parallel_error_wrapped samples.pParFail true _ _ (List.Perm.refl _) (List.Perm.refl _)

/-- C4: for every ParallelComposite, `Execute` executes every child — each
child's `Execute` is invoked, regardless of the declared order of children,
so the interleaved trace is a permutation of the concatenation of the
children's traces — and `Execute` returns nil if and only if every child's
`Execute` returns nil. -/
theorem common.parallel_fan_out (p : common.parallelCompositeCommand) (sh : Bool)
    (order : List (util.ConcurrentTask Nat))
    (horder : order.Perm (common.execTasks p sh)) :
    ((p.Execute sh order).2.1).Perm (p.cmds.flatMap fun c => (c.Execute sh).1) ∧
    ((p.Execute sh order).2.2 = none ↔ ∀ c ∈ p.cmds, (c.Execute sh).2 = none) := by
  rw [common.parallel_execute_eq]
  constructor
  · have h1 := horder.flatMap_right fun t => t.ToRun.events
    have h2 : (common.execTasks p sh).flatMap (fun t => t.ToRun.events) =
        p.cmds.flatMap fun c => (c.Execute sh).1 := by
      simp only [common.execTasks, List.flatMap_map]
      rfl
    rw [h2] at h1
    simpa using h1
  · simp only [Option.map_eq_none']
    rw [List.head?_eq_none_iff]
    have hperm := horder.flatMap_right fun t => t.ToRun.writes
    constructor
    · intro hW c hc
      rw [hW] at hperm
      have hT := hperm.nil_eq.symm
      rw [List.flatMap_eq_nil_iff] at hT
      have hc2 := hT (common.execTask c sh) (List.mem_map.mpr ⟨c, hc, rfl⟩)
      cases hcc : (c.Execute sh).2 with
      | none => rfl
      | some e => rw [show (common.execTask c sh).ToRun.writes =
          (match (c.Execute sh).2 with | some err => [err] | none => []) from rfl, hcc] at hc2
                  simp at hc2
    · intro hall
      have hT : (common.execTasks p sh).flatMap (fun t => t.ToRun.writes) = [] := by
        rw [List.flatMap_eq_nil_iff]
        intro t ht
        rcases List.mem_map.mp ht with ⟨c, hc, rfl⟩
        simp [common.execTask, hall c hc]
      rw [hT] at hperm
      exact hperm.eq_nil

/-- C4 witness: both children of a concrete two-child composite run and the
composite fails because one child fails. -/
theorem common.parallel_fan_out_witness :
    ((samples.pParMixed.Execute true (common.execTasks samples.pParMixed true)).2.1).Perm
      (samples.pParMixed.cmds.flatMap fun c => (c.Execute true).1) ∧
    ((samples.pParMixed.Execute true (common.execTasks samples.pParMixed true)).2.2 = none ↔
      ∀ c ∈ samples.pParMixed.cmds, (c.Execute true).2 = none) :=
  common.parallel_fan_out samples.pParMixed true _ (List.Perm.refl _)

theorem common.seqRunChildren_all_ok (step : common.command → List Nat × Option GoErr) :
    ∀ cs : List common.command, (∀ c ∈ cs, (step c).2 = none) →
      common.seqRunChildren step cs = (cs.flatMap fun c => (step c).1, none) := by
  intro cs
  induction cs with
  | nil => intro _; simp [common.seqRunChildren]
  | cons c rest ih =>
    intro hall
    have hc : (step c).2 = none := hall c (List.mem_cons_self c rest)
    have hrest := ih fun c2 hc2 => hall c2 (List.mem_cons_of_mem c hc2)
    simp only [common.seqRunChildren, hc, hrest, List.flatMap_cons]

theorem common.seqRunChildren_first_failure (step : common.command → List Nat × Option GoErr)
    (c : common.command) (post : List common.command) (e : GoErr)
    (hfail : (step c).2 = some e) :
    ∀ pre : List common.command, (∀ c2 ∈ pre, (step c2).2 = none) →
      common.seqRunChildren step (pre ++ c :: post) =
        ((pre.flatMap fun c2 => (step c2).1) ++ (step c).1, some e) := by
  intro pre
  induction pre with
  | nil => intro _; simp [common.seqRunChildren, hfail]
  | cons c0 rest ih =>
    intro hpre
    have hc0 : (step c0).2 = none := hpre c0 (List.mem_cons_self c0 rest)
    have hrest := ih fun c2 hc2 => hpre c2 (List.mem_cons_of_mem c0 hc2)
    simp only [List.cons_append, common.seqRunChildren, hc0, List.append_eq]
    rw [hrest]
    simp [List.flatMap_cons, List.append_assoc]

/-- C5: Modelled from the spec: for every SequentialComposite, `Execute`
invokes the children's `Execute` strictly in declaration order; if some child
fails, `Execute` returns that error unchanged (no wrapping) and no later
child's `Execute` is ever invoked (the trace contains exactly the side
effects of the already-executed children); if all children succeed, every
child is executed exactly once in order and `Execute` returns nil. -/
theorem common.sequential_stops_at_first_failure (cmds : List common.command) (sh : Bool) :
    (∀ pre c post, cmds = pre ++ c :: post →
      (∀ c2 ∈ pre, (c2.Execute sh).2 = none) →
      ∀ e, (c.Execute sh).2 = some e →
        (common.sequentialCompositeCommand.mk cmds).Execute sh =
          (⟨cmds⟩, (pre.flatMap fun c2 => (c2.Execute sh).1) ++ (c.Execute sh).1, some e)) ∧
    ((∀ c ∈ cmds, (c.Execute sh).2 = none) →
      (common.sequentialCompositeCommand.mk cmds).Execute sh =
        (⟨cmds⟩, cmds.flatMap fun c => (c.Execute sh).1, none)) := by
  constructor
  · intro pre c post hsplit hpre e hfail
    subst hsplit
    simp only [common.sequentialCompositeCommand.Execute]
    rw [common.seqRunChildren_first_failure _ c post e hfail pre hpre]
  · intro hall
    simp only [common.sequentialCompositeCommand.Execute]
    rw [common.seqRunChildren_all_ok _ cmds hall]

/-- C5 witness: in a concrete sequential composite [ok, fail, ok], execution
stops at the failing middle child, returns its error unwrapped, and the last
child's side effect never happens. -/
theorem common.sequential_stops_at_first_failure_witness :
    (common.sequentialCompositeCommand.mk
        [samples.okCmdA, samples.failCmdA, samples.okCmdB]).Execute true =
      (⟨[samples.okCmdA, samples.failCmdA, samples.okCmdB]⟩, [1, 3],
        some (GoErr.base "boomA")) := by
  have h := (common.sequential_stops_at_first_failure
      [samples.okCmdA, samples.failCmdA, samples.okCmdB] true).1
    [samples.okCmdA] samples.failCmdA [samples.okCmdB] rfl
    (by intro c2 hc2; rw [List.mem_singleton] at hc2; subst hc2; rfl)
    (GoErr.base "boomA") rfl
  simpa using h

/-- C6: a ParallelComposite or SequentialComposite with zero children
succeeds immediately: `Execute` returns nil without invoking any child action
and without performing any side effect (empty trace); equivalently, a Task
Runner constructed with capacity 0 returns success from `Run()` with no
launched units. -/
theorem common.zero_children_succeed (sh : Bool) (order : List (util.ConcurrentTask Nat))
    (horder : order.Perm (common.execTasks ⟨[]⟩ sh)) :
    (common.parallelCompositeCommand.mk []).Execute sh order = (⟨[]⟩, [], none) ∧
    (common.sequentialCompositeCommand.mk []).Execute sh = (⟨[]⟩, [], none) ∧
    (util.NewConcurrentTasks Nat 0).Run [] = Except.ok (⟨0, [], true⟩, [], none) := by
  have hnil : order = [] := List.perm_nil.mp horder
  subst hnil
  refine ⟨?_, rfl, ?_⟩
  · rw [common.parallel_execute_eq]; rfl
  · simp [util.NewConcurrentTasks, util.ConcurrentTasks.Run]

/-- C6 witness: the zero-child composites at a concrete flag and the empty
completion order. -/
theorem common.zero_children_succeed_witness :
    (common.parallelCompositeCommand.mk []).Execute true [] = (⟨[]⟩, [], none) ∧
    (common.sequentialCompositeCommand.mk []).Execute true = (⟨[]⟩, [], none) ∧
    (util.NewConcurrentTasks Nat 0).Run [] = Except.ok (⟨0, [], true⟩, [], none) :=
  common.zero_children_succeed true [] (List.Perm.refl _)

/-- C7: Modelled from the spec: for every Task Runner constructed with
capacity n and filled with exactly n work units, registering an (n+1)-th unit
fails immediately and loudly at registration time with the over-capacity
misuse error (not silently ignored, the extra unit never silently dropped),
and invoking `Run()` a second time on the same runner fails with the
run-twice misuse error. -/
theorem util.capacity_and_rerun_misuse (n : Nat) (ts : List (util.ConcurrentTask Nat))
    (hlen : ts.length = n) (extra : util.ConcurrentTask Nat)
    (order order2 : List (util.ConcurrentTask Nat)) :
    ∃ runner : util.ConcurrentTasks Nat,
      (util.NewConcurrentTasks Nat n).addAll ts = Except.ok runner ∧
      runner.Add extra = Except.error util.MisuseError.overCapacity ∧
      ∃ runner2 trace res,
        runner.Run order = Except.ok (runner2, trace, res) ∧
        runner2.Run order2 = Except.error util.MisuseError.runTwice := by
  refine ⟨⟨n, ts, false⟩, ?_, ?_, ?_⟩
  · have h := util.addAll_ok ts (util.NewConcurrentTasks Nat n)
      (by simp [util.NewConcurrentTasks, hlen])
    simpa [util.NewConcurrentTasks] using h
  · simp [util.ConcurrentTasks.Add, hlen]
  · refine ⟨⟨n, ts, true⟩, order.flatMap (fun t => t.ToRun.events),
      (order.flatMap fun t => t.ToRun.writes).head?, ?_, ?_⟩
    · rw [util.run_fresh]
    · simp [util.ConcurrentTasks.Run]

/-- C7 witness: a runner of capacity 1 holding one unit rejects a second
registration and rejects a second `Run`. -/
theorem util.capacity_and_rerun_misuse_witness :
    ∃ runner : util.ConcurrentTasks Nat,
      (util.NewConcurrentTasks Nat 1).addAll [samples.unitFail] = Except.ok runner ∧
      runner.Add samples.unitOk = Except.error util.MisuseError.overCapacity ∧
      ∃ runner2 trace res,
        runner.Run [samples.unitFail] = Except.ok (runner2, trace, res) ∧
        runner2.Run [] = Except.error util.MisuseError.runTwice :=
  util.capacity_and_rerun_misuse 1 [samples.unitFail] rfl samples.unitOk [samples.unitFail] []

/-- C8: for every Command (leaf, sequential composite, or parallel
composite), invoking `Execute` or `UnExecute` leaves the command's structure
unchanged — the variant and the list of children (identity, count, order)
are identical before and after the call, for successful and failing
invocations alike (the embedded methods return the receiver exactly as the
method body leaves it). -/
theorem common.command_structure_immutable :
    (∀ (p : common.parallelCompositeCommand) (sh : Bool)
        (order orderU : List (util.ConcurrentTask Nat)),
      (p.Execute sh order).1 = p ∧ (p.Execute sh order).1.cmds = p.cmds ∧
      (p.UnExecute orderU).1 = p ∧ (p.UnExecute orderU).1.cmds = p.cmds) ∧
    (∀ (s : common.sequentialCompositeCommand) (sh : Bool),
      (s.Execute sh).1 = s ∧ (s.Execute sh).1.cmds = s.cmds ∧
      s.UnExecute.1 = s ∧ s.UnExecute.1.cmds = s.cmds) ∧
    ∀ (l : common.leafCommand) (sh : Bool),
      (l.Execute sh).1 = l ∧ l.UnExecute.1 = l := by
  refine ⟨fun p sh order orderU => ?_, fun s sh => ⟨rfl, rfl, rfl, rfl⟩,
    fun l sh => ⟨rfl, rfl⟩⟩
  rw [common.parallel_execute_eq, common.parallel_unexecute_eq]
  exact ⟨rfl, rfl, rfl, rfl⟩

theorem registry.getDevfileRegistries_err_none (o : registry.RegistryClient)
    (registryName : String) :
    registry.GetDevfileRegistries o registryName =
      ((registry.GetDevfileRegistries o registryName).1, none) := by
  cases h : o.preferenceClient.RegistryList <;> simp [registry.GetDevfileRegistries, h]

theorem registry.retrieveTask_writes_nil
    (fetch : registry.Registry → Except GoErr (List registry.DevfileStack))
    (i : Nat) (reg : registry.Registry) :
    (registry.retrieveTask fetch i reg).ToRun.writes = [] := by
  cases h : fetch reg <;> simp [registry.retrieveTask, h]

theorem registry.applyTrace_eq_applyUpds (tr : List registry.RegistryEvent) :
    ∀ sl, registry.applyTrace sl tr = registry.applyUpds sl (tr.filterMap registry.evToUpd) := by
  induction tr with
  | nil => intro sl; rfl
  | cons ev rest ih =>
    intro sl
    cases ev with
    | slotWrite i stks =>
      simp only [registry.applyTrace, registry.applyUpds, List.filterMap_cons,
        registry.evToUpd, List.foldl_cons] at ih ⊢
      exact ih (sl.set i stks)
    | warning nm =>
      simp only [registry.applyTrace, registry.applyUpds, List.filterMap_cons,
        registry.evToUpd, List.foldl_cons, registry.applySlot] at ih ⊢
      exact ih sl

theorem registry.applyUpds_length (us : List (Nat × List registry.DevfileStack)) :
    ∀ sl, (registry.applyUpds sl us).length = sl.length := by
  induction us with
  | nil => intro sl; rfl
  | cons u rest ih =>
    intro sl
    simp only [registry.applyUpds, List.foldl_cons] at ih ⊢
    rw [ih (sl.set u.1 u.2), List.length_set]

theorem registry.applyUpds_getElem_not_mem (us : List (Nat × List registry.DevfileStack))
    (k : Nat) (hk : k ∉ us.map Prod.fst) :
    ∀ sl, (registry.applyUpds sl us)[k]? = sl[k]? := by
  induction us with
  | nil => intro sl; rfl
  | cons u rest ih =>
    intro sl
    simp only [List.map_cons, List.mem_cons, not_or] at hk
    simp only [registry.applyUpds, List.foldl_cons] at ih ⊢
    rw [ih hk.2 (sl.set u.1 u.2), List.getElem?_set_ne (fun h => hk.1 h.symm)]

theorem registry.applyUpds_getElem_mem (us : List (Nat × List registry.DevfileStack))
    (k : Nat) (v : List registry.DevfileStack) :
    ∀ sl, (us.map Prod.fst).Nodup → (k, v) ∈ us → k < sl.length →
      (registry.applyUpds sl us)[k]? = some v := by
  induction us with
  | nil => intro sl _ hmem _; exact absurd hmem (List.not_mem_nil _)
  | cons u rest ih =>
    intro sl hnd hmem hlt
    simp only [List.map_cons, List.nodup_cons] at hnd
    have hstep : registry.applyUpds sl (u :: rest) =
        registry.applyUpds (sl.set u.1 u.2) rest := rfl
    rw [hstep]
    rcases List.mem_cons.mp hmem with heq | hmem2
    · obtain rfl : u = (k, v) := heq.symm
      have h1 := registry.applyUpds_getElem_not_mem rest k hnd.1 (sl.set k v)
      rw [show registry.applyUpds (sl.set (k, v).1 (k, v).2) rest =
          registry.applyUpds (sl.set k v) rest from rfl, h1, List.getElem?_set_self hlt]
    · exact ih (sl.set u.1 u.2) hnd.2 hmem2 (by rw [List.length_set]; exact hlt)

theorem registry.retrieveTasks_writes_nil
    (fetch : registry.Registry → Except GoErr (List registry.DevfileStack))
    (regs : List registry.Registry) :
    ((registry.retrieveTasks fetch regs).flatMap fun t => t.ToRun.writes) = [] := by
  rw [List.flatMap_eq_nil_iff]
  intro t ht
  rcases List.mem_map.mp ht with ⟨pr, _, rfl⟩
  exact registry.retrieveTask_writes_nil fetch pr.1 pr.2

theorem registry.trace_updates_eq
    (fetch : registry.Registry → Except GoErr (List registry.DevfileStack)) :
    ∀ l : List (Nat × registry.Registry),
      (((l.map fun pr => registry.retrieveTask fetch pr.1 pr.2).flatMap
          fun t => t.ToRun.events).filterMap registry.evToUpd) =
        l.filterMap (registry.updOf fetch) := by
  intro l
  induction l with
  | nil => rfl
  | cons pr rest ih =>
    simp only [List.map_cons, List.flatMap_cons, List.filterMap_append, ih]
    cases h : fetch pr.2 <;>
      simp [registry.retrieveTask, registry.evToUpd, registry.updOf, h]

theorem registry.filterMap_sublist_map {α β : Type} (h : α → Option β) (g : α → β)
    (hcond : ∀ a b, h a = some b → b = g a) :
    ∀ l : List α, List.Sublist (l.filterMap h) (l.map g) := by
  intro l
  induction l with
  | nil => exact List.Sublist.refl _
  | cons a rest ih =>
    rw [List.filterMap_cons, List.map_cons]
    cases ha : h a with
    | none => exact ih.cons (g a)
    | some b => rw [hcond a b ha]; exact ih.cons₂ (g a)

theorem registry.upds_fst_nodup
    (fetch : registry.Registry → Except GoErr (List registry.DevfileStack))
    (regs : List registry.Registry) :
    ((regs.enum.filterMap (registry.updOf fetch)).map Prod.fst).Nodup := by
  rw [List.map_filterMap]
  have hsub := registry.filterMap_sublist_map
    (fun pr => (registry.updOf fetch pr).map Prod.fst) Prod.fst
    (fun pr b hb => by
      cases h : fetch pr.2 with
      | error e => simp only [registry.updOf, h, Option.map_none'] at hb; exact absurd hb (by simp)
      | ok l =>
        simp only [registry.updOf, h, Option.map_some', Option.some.injEq] at hb
        omega)
    regs.enum
  exact hsub.nodup (List.nodup_enum_map_fst regs)

theorem registry.mem_upds_iff
    (fetch : registry.Registry → Except GoErr (List registry.DevfileStack))
    (regs : List registry.Registry) (k : Nat) (v : List registry.DevfileStack) :
    (k, v) ∈ regs.enum.filterMap (registry.updOf fetch) ↔
      ∃ r, regs[k]? = some r ∧ fetch r = Except.ok v := by
  constructor
  · intro hmem
    rcases List.mem_filterMap.mp hmem with ⟨pr, hpr, hupd⟩
    cases hf : fetch pr.2 with
    | error e => rw [registry.updOf, hf] at hupd; exact absurd hupd (by simp)
    | ok l =>
      rw [registry.updOf, hf] at hupd
      simp only [Option.some.injEq, Prod.mk.injEq] at hupd
      obtain ⟨pr1, pr2⟩ := pr
      obtain ⟨rfl, rfl⟩ : pr1 = k ∧ l = v := ⟨hupd.1, hupd.2⟩
      refine ⟨pr2, ?_, hf⟩
      have := List.mk_mem_enum_iff_get?.mp hpr
      rwa [List.get?_eq_getElem?] at this
  · intro ⟨r, hk, hf⟩
    refine List.mem_filterMap.mpr ⟨(k, r), ?_, ?_⟩
    · exact List.mk_mem_enum_iff_get?.mpr (by rwa [List.get?_eq_getElem?])
    · rw [registry.updOf, hf]

theorem registry.applyUpds_perm_upds
    (fetch : registry.Registry → Except GoErr (List registry.DevfileStack))
    (regs : List registry.Registry) (us : List (Nat × List registry.DevfileStack))
    (hperm : us.Perm (regs.enum.filterMap (registry.updOf fetch))) :
    registry.applyUpds (List.replicate regs.length []) us =
      regs.map (registry.stacksOf fetch) := by
  have hnd : (us.map Prod.fst).Nodup :=
    ((hperm.map Prod.fst).symm).nodup (registry.upds_fst_nodup fetch regs)
  apply List.ext_getElem?
  intro k
  rw [List.getElem?_map]
  cases hk : regs[k]? with
  | none =>
    have hklen : regs.length ≤ k := List.getElem?_eq_none_iff.mp hk
    have hnotmem : k ∉ us.map Prod.fst := by
      intro hkm
      rcases List.mem_map.mp hkm with ⟨u, hu, hufst⟩
      rcases (registry.mem_upds_iff fetch regs u.1 u.2).mp (hperm.mem_iff.mp hu) with
        ⟨r, hr, _⟩
      rw [hufst, hk] at hr
      exact absurd hr (by simp)
    rw [registry.applyUpds_getElem_not_mem us k hnotmem]
    rw [List.getElem?_eq_none (by simpa using hklen)]
    rfl
  | some r =>
    rcases List.getElem?_eq_some_iff.mp hk with ⟨hlt, _⟩
    cases hf : fetch r with
    | ok v =>
      have hmem : (k, v) ∈ us :=
        hperm.mem_iff.mpr ((registry.mem_upds_iff fetch regs k v).mpr ⟨r, hk, hf⟩)
      rw [registry.applyUpds_getElem_mem us k v (List.replicate regs.length []) hnd hmem
        (by simpa using hlt)]
      simp [registry.stacksOf, hf]
    | error e =>
      have hnotmem : k ∉ us.map Prod.fst := by
        intro hkm
        rcases List.mem_map.mp hkm with ⟨u, hu, hufst⟩
        rcases (registry.mem_upds_iff fetch regs u.1 u.2).mp (hperm.mem_iff.mp hu) with
          ⟨r2, hr2, hf2⟩
        rw [hufst, hk] at hr2
        obtain rfl : r = r2 := by injection hr2
        rw [hf] at hf2
        exact absurd hf2 (by simp)
      rw [registry.applyUpds_getElem_not_mem us k hnotmem,
        List.getElem?_replicate_of_lt hlt]
      simp [registry.stacksOf, hf]

theorem registry.listDevfileStacks_eq (o : registry.RegistryClient)
    (fetch : registry.Registry → Except GoErr (List registry.DevfileStack))
    (registryName : String) (order : List (util.ConcurrentTask registry.RegistryEvent))
    (horder : order.Perm (registry.retrieveTasks fetch
      (registry.GetDevfileRegistries o registryName).1)) :
    registry.ListDevfileStacks o fetch registryName order =
      (⟨(registry.GetDevfileRegistries o registryName).1,
        (registry.GetDevfileRegistries o registryName).1.flatMap
          (registry.stacksOf fetch)⟩, none) := by
  have h0 := registry.getDevfileRegistries_err_none o registryName
  set regs := (registry.GetDevfileRegistries o registryName).1 with hregs
  by_cases hemp : regs.isEmpty
  · have hnil : regs = [] := List.isEmpty_iff.mp hemp
    simp only [registry.ListDevfileStacks, h0, hnil, List.flatMap_nil]
    simp
  · have haddlen : (registry.retrieveTasks fetch regs).length = regs.length := by
      simp [registry.retrieveTasks, List.enum_length]
    have hadd := util.addAll_ok (registry.retrieveTasks fetch regs)
      (util.NewConcurrentTasks registry.RegistryEvent regs.length)
      (by simp [util.NewConcurrentTasks, haddlen])
    have hWnil : (order.flatMap fun t => t.ToRun.writes) = [] := by
      have hperm := horder.flatMap_right fun t => t.ToRun.writes
      rw [registry.retrieveTasks_writes_nil] at hperm
      exact hperm.eq_nil
    have htr : registry.applyTrace (List.replicate regs.length [])
        (order.flatMap fun t => t.ToRun.events) = regs.map (registry.stacksOf fetch) := by
      rw [registry.applyTrace_eq_applyUpds]
      apply registry.applyUpds_perm_upds
      have hperm := (horder.flatMap_right fun t => t.ToRun.events).filterMap registry.evToUpd
      rw [show registry.retrieveTasks fetch regs =
          regs.enum.map fun pr => registry.retrieveTask fetch pr.1 pr.2 from rfl] at hperm
      rw [registry.trace_updates_eq fetch regs.enum] at hperm
      exact hperm
    simp only [registry.ListDevfileStacks, h0, hemp, if_false, Bool.false_eq_true,
      util.NewConcurrentTasks] at hadd ⊢
    rw [hadd]
    simp only [List.nil_append]
    rw [util.run_fresh, hWnil]
    simp only [List.head?_nil]
    rw [htr, ← List.flatMap_def]

/-- C9: a work unit whose underlying action fails but which writes nothing to
the shared error channel is indistinguishable from a successful unit: in
`ListDevfileStacks`, when `getRegistryStacks` (here the abstract `fetch`)
fails for some registry, that unit only logs a warning and returns without
writing to the error channel, so `Run()` returns nil, `ListDevfileStacks`
returns a nil error, and the failing registry simply contributes no items to
the result. -/
theorem registry.failed_registry_logged_and_swallowed (o : registry.RegistryClient)
    (fetch : registry.Registry → Except GoErr (List registry.DevfileStack))
    (registryName : String) (order : List (util.ConcurrentTask registry.RegistryEvent))
    (reg : registry.Registry) (e : GoErr)
    (hmem : reg ∈ (registry.GetDevfileRegistries o registryName).1)
    (hfail : fetch reg = Except.error e)
    (horder : order.Perm (registry.retrieveTasks fetch
      (registry.GetDevfileRegistries o registryName).1)) :
    (∀ i, registry.retrieveTask fetch i reg =
      ⟨⟨[registry.RegistryEvent.warning reg.Name], []⟩⟩) ∧
    (registry.ListDevfileStacks o fetch registryName order).2 = none ∧
    (registry.ListDevfileStacks o fetch registryName order).1.Items =
      (registry.GetDevfileRegistries o registryName).1.flatMap (registry.stacksOf fetch) ∧
    registry.stacksOf fetch reg = [] := by
  have h := registry.listDevfileStacks_eq o fetch registryName order horder
  refine ⟨?_, ?_, ?_, ?_⟩
  · intro i; simp [registry.retrieveTask, hfail]
  · rw [h]
  · rw [h]
  · simp [registry.stacksOf, hfail]

/-- C9 witness: with a concrete preference file of two registries and a fetch
that fails for the first-priority registry, listing swallows the failure and
returns only the other registry's stack. -/
theorem registry.failed_registry_logged_and_swallowed_witness :
    (∀ i, registry.retrieveTask samples.sampleFetch i samples.regA =
      ⟨⟨[registry.RegistryEvent.warning samples.regA.Name], []⟩⟩) ∧
    (registry.ListDevfileStacks samples.regClient samples.sampleFetch ""
      (registry.retrieveTasks samples.sampleFetch
        (registry.GetDevfileRegistries samples.regClient "").1)).2 = none ∧
    (registry.ListDevfileStacks samples.regClient samples.sampleFetch ""
      (registry.retrieveTasks samples.sampleFetch
        (registry.GetDevfileRegistries samples.regClient "").1)).1.Items =
      (registry.GetDevfileRegistries samples.regClient "").1.flatMap
        (registry.stacksOf samples.sampleFetch) ∧
    registry.stacksOf samples.sampleFetch samples.regA = [] :=
  registry.failed_registry_logged_and_swallowed samples.regClient samples.sampleFetch ""
    _ samples.regA (GoErr.base "index down") (by decide) rfl (List.Perm.refl _)

/-- C10: for every registry list, `ListDevfileStacks` returns `Items` as the
concatenation of each registry's devfile stacks in ascending registry
priority order (the index order returned by `GetDevfileRegistries`, a failed
retrieval contributing nothing), because each concurrent retrieval writes
its result into the slot of a slice indexed by that registry's priority and
the slots are concatenated in index order afterwards — the final result is
the same for every completion order of the retrievals, with a nil error. -/
theorem registry.listDevfileStacks_priority_order (o : registry.RegistryClient)
    (fetch : registry.Registry → Except GoErr (List registry.DevfileStack))
    (registryName : String) (order : List (util.ConcurrentTask registry.RegistryEvent))
    (horder : order.Perm (registry.retrieveTasks fetch
      (registry.GetDevfileRegistries o registryName).1)) :
    registry.ListDevfileStacks o fetch registryName order =
      (⟨(registry.GetDevfileRegistries o registryName).1,
        (registry.GetDevfileRegistries o registryName).1.flatMap
          (registry.stacksOf fetch)⟩, none) :=
  registry.listDevfileStacks_eq o fetch registryName order horder

/-- C10 witness: the concrete two-registry client yields the items of the
two registries concatenated in priority order. -/
theorem registry.listDevfileStacks_priority_order_witness :
    registry.ListDevfileStacks samples.regClient samples.sampleFetch ""
      (registry.retrieveTasks samples.sampleFetch
        (registry.GetDevfileRegistries samples.regClient "").1) =
      (⟨(registry.GetDevfileRegistries samples.regClient "").1,
        (registry.GetDevfileRegistries samples.regClient "").1.flatMap
          (registry.stacksOf samples.sampleFetch)⟩, none) :=
  registry.listDevfileStacks_priority_order samples.regClient samples.sampleFetch ""
    _ (List.Perm.refl _)
